import Mathlib

/-!
Verification of the LLVM bitcode encoder core of renderdoc
(`driver/shaders/dxil/llvm_encoder.cpp`).

The bit stream is modelled as a `List Bool` in emission order: within each
byte the least significant bit comes first, so a little-endian 32-bit word
written at a 32-bit-aligned position occupies 32 consecutive list entries
holding the low bit of the value first.  The low-level bit cursor
(`BitWriter` in `llvm_encoder.h`, outside the shown core) is modelled from
the specification of its primitives; the `BitcodeWriter` operations are
translated from the source file.
-/

namespace LLVMBC

set_option maxRecDepth 40000

/-- Low `w` bits of `v`, least significant bit first.  This is the bit
sequence produced by the fixed-width write primitive. -/
def natBits : Nat → Nat → List Bool
  | 0, _ => []
  | w + 1, v => (v % 2 == 1) :: natBits w (v / 2)

/-- Value of a bit sequence read least significant bit first; inverse of
`natBits` on values that fit. -/
def natOfBits : List Bool → Nat
  | [] => 0
  | b :: bs => (if b then 1 else 0) + 2 * natOfBits bs

/-- Fuel-driven worker for `vbrBits`; the fuel strictly exceeds the value,
so the fallback branch is never reached on the calls made by `vbrBits`. -/
def vbrBitsAux : Nat → Nat → Nat → List Bool
  | 0, w, v => natBits w v
  | fuel + 1, w, v =>
    if w ≤ 1 then natBits w v
    else if v < 2 ^ (w - 1) then natBits (w - 1) v ++ [false]
    else (natBits (w - 1) v ++ [true]) ++ vbrBitsAux fuel w (v / 2 ^ (w - 1))

/-- Modelled from the spec: `BitWriter::vbr` splits the value into groups of
`w - 1` bits, least significant group first; every group but the last has
its top (continuation) bit set, the last group has it clear. -/
def vbrBits (w v : Nat) : List Bool := vbrBitsAux (v + 1) w v

/-- Fuel-driven bit-length worker: number of binary digits of `n`, with the
fuel bounding the recursion depth. -/
def bitLenAux : Nat → Nat → Nat
  | 0, _ => 0
  | _ + 1, 0 => 0
  | fuel + 1, n + 1 => bitLenAux fuel ((n + 1) / 2) + 1

/-- Bit length of a 32-bit value: 0 for 0, otherwise the position of the
highest set bit plus one. -/
def bitLen32 (n : Nat) : Nat := bitLenAux 32 n

/-- Modelled from the spec: `Bits::CountLeadingZeroes` over a 32-bit value
(`os_specific.h`, outside the shown core): the number of leading zero bits
of `n` as a 32-bit word.  The spec leaves `n = 0` undefined; the hardware
convention of 32 is used. -/
def countLeadingZeroes32 (n : Nat) : Nat := 32 - bitLen32 n

/-- Output buffer of the bit cursor, as a flat bit list. -/
structure BitWriter where
  bits : List Bool
deriving DecidableEq

/-- Modelled from the spec: `BitWriter::fixed` writes the low `w` bits of
`v`, least significant bit first. -/
def writeFixed (b : BitWriter) (w v : Nat) : BitWriter :=
  ⟨b.bits ++ natBits w v⟩

/-- Modelled from the spec: `BitWriter::vbr` appends the VBR encoding of
`v` at chunk width `w`. -/
def writeVBR (b : BitWriter) (w v : Nat) : BitWriter :=
  ⟨b.bits ++ vbrBits w v⟩

/-- Modelled from the spec: `BitWriter::Write<uint32_t>` appends a 32-bit
little-endian word; at a 32-bit-aligned position this is the 32 bits of the
value, least significant first. -/
def writeU32 (b : BitWriter) (v : Nat) : BitWriter :=
  ⟨b.bits ++ natBits 32 v⟩

/-- Modelled from the spec: `BitWriter::align32bits` pads with zero bits up
to the next multiple of 32 bits; a no-op when already aligned. -/
def align32 (b : BitWriter) : BitWriter :=
  ⟨b.bits ++ List.replicate ((32 - b.bits.length % 32) % 32) false⟩

/-- Modelled from the spec: `BitWriter::GetByteOffset`, the current
position in whole bytes (used only at byte-aligned points). -/
def byteOffset (b : BitWriter) : Nat := b.bits.length / 8

/-- Modelled from the spec: `BitWriter::PatchLengthWord` overwrites the 4
bytes at byte offset `offs` with the 32-bit little-endian value, without
moving the cursor. -/
def patchLengthWord (b : BitWriter) (offs value : Nat) : BitWriter :=
  ⟨b.bits.take (8 * offs) ++ natBits 32 value ++ b.bits.drop (8 * offs + 32)⟩

/-- Little-endian 32-bit word found at byte offset `offs` of a bit list. -/
def readLE32 (bits : List Bool) (offs : Nat) : Nat :=
  natOfBits ((bits.drop (8 * offs)).take 32)

/-- Known block kinds, from the `switch` in `GetBlockAbbrevSize`; `Count`
is the sentinel used for the top level. -/
inductive KnownBlock where
  | BLOCKINFO
  | MODULE_BLOCK
  | PARAMATTR_BLOCK
  | PARAMATTR_GROUP_BLOCK
  | CONSTANTS_BLOCK
  | FUNCTION_BLOCK
  | VALUE_SYMTAB_BLOCK
  | METADATA_BLOCK
  | METADATA_ATTACHMENT
  | TYPE_BLOCK
  | USELIST_BLOCK
  | Count
deriving DecidableEq

/-- Per-block abbreviation-id bit widths, translated from
`GetBlockAbbrevSize`; the sentinel falls through to the initial 0. -/
def GetBlockAbbrevSize : KnownBlock → Nat
  | .BLOCKINFO => 2
  | .MODULE_BLOCK => 3
  | .PARAMATTR_BLOCK => 3
  | .PARAMATTR_GROUP_BLOCK => 3
  | .CONSTANTS_BLOCK => 4
  | .FUNCTION_BLOCK => 4
  | .VALUE_SYMTAB_BLOCK => 4
  | .METADATA_BLOCK => 3
  | .METADATA_ATTACHMENT => 3
  | .TYPE_BLOCK => 4
  | .USELIST_BLOCK => 3
  | .Count => 0

/-- Modelled from the spec: the numeric values of the `KnownBlock`
enumeration are declared in `llvm_decoder.h`, outside the shown core; they
are the standard LLVM bitstream block IDs the spec targets. -/
def blockId : KnownBlock → Nat
  | .BLOCKINFO => 0
  | .MODULE_BLOCK => 8
  | .PARAMATTR_BLOCK => 9
  | .PARAMATTR_GROUP_BLOCK => 10
  | .CONSTANTS_BLOCK => 11
  | .FUNCTION_BLOCK => 12
  | .VALUE_SYMTAB_BLOCK => 14
  | .METADATA_BLOCK => 15
  | .METADATA_ATTACHMENT => 16
  | .TYPE_BLOCK => 17
  | .USELIST_BLOCK => 18
  | .Count => 19

/-- Abbreviation parameter encodings; `Unknown` (numeric 0) is the list
terminator used by the static tables. -/
inductive AbbrevEncoding where
  | Unknown
  | Fixed
  | VBR
  | Array
  | Char6
  | Literal
deriving DecidableEq

/-- Modelled from the spec: the 3-bit encoding-kind tag of the
`DEFINE_ABBREV` wire form (`AbbrevEncoding` is declared outside the shown
core): Fixed = 1, VBR = 2, Array = 3, Char6 = 4; `Unknown` is the numeric
0 sentinel and `Literal` is never emitted as a tag (the literal flag bit is
emitted instead). -/
def encCode : AbbrevEncoding → Nat
  | .Unknown => 0
  | .Fixed => 1
  | .VBR => 2
  | .Array => 3
  | .Char6 => 4
  | .Literal => 255

/-- One abbreviation parameter: an encoding kind and a 64-bit value whose
meaning depends on the kind (literal value, bit width, or unused). -/
structure AbbrevParam where
  encoding : AbbrevEncoding
  value : Nat
deriving DecidableEq

/-- The reserved width magic replaced by the type-index bit length at
encode time (`#define MagicFixedSizeNumTypes 99`). -/
def MagicFixedSizeNumTypes : Nat := 99

/-- Reserved abbreviation IDs of the bitstream format: `END_BLOCK` = 0. -/
def END_BLOCK : Nat := 0

/-- Reserved abbreviation IDs of the bitstream format: `ENTER_SUBBLOCK` = 1. -/
def ENTER_SUBBLOCK : Nat := 1

/-- Reserved abbreviation IDs of the bitstream format: `DEFINE_ABBREV` = 2. -/
def DEFINE_ABBREV : Nat := 2

/-- Reserved abbreviation IDs of the bitstream format: `UNABBREV_RECORD` = 3. -/
def UNABBREV_RECORD : Nat := 3

namespace ValueSymtabRecord

/-- Modelled from the spec: record codes of the value symbol table block
(declared outside the shown core); LLVM `VST_CODE_ENTRY`. -/
def ENTRY : Nat := 1

/-- Modelled from the spec: LLVM `VST_CODE_BBENTRY`. -/
def BBENTRY : Nat := 2

end ValueSymtabRecord

namespace ConstantsRecord

/-- Modelled from the spec: record codes of the constants block (declared
outside the shown core); LLVM `CST_CODE_SETTYPE`. -/
def SETTYPE : Nat := 1

/-- Modelled from the spec: LLVM `CST_CODE_NULL`. -/
def CONST_NULL : Nat := 2

/-- Modelled from the spec: LLVM `CST_CODE_INTEGER`. -/
def INTEGER : Nat := 4

/-- Modelled from the spec: LLVM `CST_CODE_CE_CAST`. -/
def EVAL_CAST : Nat := 11

end ConstantsRecord

namespace FunctionRecord

/-- Modelled from the spec: record codes of the function block (declared
outside the shown core); LLVM `FUNC_CODE_INST_BINOP`. -/
def INST_BINOP : Nat := 2

/-- Modelled from the spec: LLVM `FUNC_CODE_INST_CAST`. -/
def INST_CAST : Nat := 3

/-- Modelled from the spec: LLVM `FUNC_CODE_INST_RET`. -/
def INST_RET : Nat := 10

/-- Modelled from the spec: LLVM `FUNC_CODE_INST_UNREACHABLE`. -/
def INST_UNREACHABLE : Nat := 15

/-- Modelled from the spec: LLVM `FUNC_CODE_INST_LOAD`. -/
def INST_LOAD : Nat := 20

/-- Modelled from the spec: LLVM `FUNC_CODE_INST_GEP`. -/
def INST_GEP : Nat := 43

end FunctionRecord

namespace BlockInfoRecord

/-- Modelled from the spec: the `SETBID` record code of the BLOCKINFO
block (declared outside the shown core); LLVM `BLOCKINFO_CODE_SETBID`. -/
def SETBID : Nat := 1

end BlockInfoRecord

/-- The zero-initialized trailing entry of each `AbbrevParam[8]` array. -/
def AbbrevSentinel : AbbrevParam := ⟨AbbrevEncoding.Unknown, 0⟩

/-- `ValueSymtabAbbrevDefs`, translated from the source; each definition is
an `AbbrevParam[8]` array padded with zero-initialized sentinels. -/
def ValueSymtabAbbrevDefs : List (List AbbrevParam) :=
  [[⟨.Fixed, 3⟩, ⟨.VBR, 8⟩, ⟨.Array, 0⟩, ⟨.Fixed, 8⟩,
    AbbrevSentinel, AbbrevSentinel, AbbrevSentinel, AbbrevSentinel],
   [⟨.Literal, ValueSymtabRecord.ENTRY⟩, ⟨.VBR, 8⟩, ⟨.Array, 0⟩, ⟨.Fixed, 7⟩,
    AbbrevSentinel, AbbrevSentinel, AbbrevSentinel, AbbrevSentinel],
   [⟨.Literal, ValueSymtabRecord.ENTRY⟩, ⟨.VBR, 8⟩, ⟨.Array, 0⟩, ⟨.Char6, 0⟩,
    AbbrevSentinel, AbbrevSentinel, AbbrevSentinel, AbbrevSentinel],
   [⟨.Literal, ValueSymtabRecord.BBENTRY⟩, ⟨.VBR, 8⟩, ⟨.Array, 0⟩, ⟨.Char6, 0⟩,
    AbbrevSentinel, AbbrevSentinel, AbbrevSentinel, AbbrevSentinel]]

/-- `ConstantsAbbrevDefs`, translated from the source. -/
def ConstantsAbbrevDefs : List (List AbbrevParam) :=
  [[⟨.Literal, ConstantsRecord.SETTYPE⟩, ⟨.Fixed, MagicFixedSizeNumTypes⟩,
    AbbrevSentinel, AbbrevSentinel, AbbrevSentinel, AbbrevSentinel, AbbrevSentinel, AbbrevSentinel],
   [⟨.Literal, ConstantsRecord.INTEGER⟩, ⟨.VBR, 8⟩,
    AbbrevSentinel, AbbrevSentinel, AbbrevSentinel, AbbrevSentinel, AbbrevSentinel, AbbrevSentinel],
   [⟨.Literal, ConstantsRecord.EVAL_CAST⟩, ⟨.Fixed, 4⟩, ⟨.Fixed, MagicFixedSizeNumTypes⟩, ⟨.VBR, 8⟩,
    AbbrevSentinel, AbbrevSentinel, AbbrevSentinel, AbbrevSentinel],
   [⟨.Literal, ConstantsRecord.CONST_NULL⟩,
    AbbrevSentinel, AbbrevSentinel, AbbrevSentinel, AbbrevSentinel, AbbrevSentinel, AbbrevSentinel,
    AbbrevSentinel]]

/-- `FunctionAbbrevDefs`, translated from the source. -/
def FunctionAbbrevDefs : List (List AbbrevParam) :=
  [[⟨.Literal, FunctionRecord.INST_LOAD⟩, ⟨.VBR, 6⟩, ⟨.Fixed, MagicFixedSizeNumTypes⟩,
    ⟨.VBR, 4⟩, ⟨.Fixed, 1⟩, AbbrevSentinel, AbbrevSentinel, AbbrevSentinel],
   [⟨.Literal, FunctionRecord.INST_BINOP⟩, ⟨.VBR, 6⟩, ⟨.VBR, 6⟩, ⟨.Fixed, 4⟩,
    AbbrevSentinel, AbbrevSentinel, AbbrevSentinel, AbbrevSentinel],
   [⟨.Literal, FunctionRecord.INST_BINOP⟩, ⟨.VBR, 6⟩, ⟨.VBR, 6⟩, ⟨.Fixed, 4⟩, ⟨.Fixed, 7⟩,
    AbbrevSentinel, AbbrevSentinel, AbbrevSentinel],
   [⟨.Literal, FunctionRecord.INST_CAST⟩, ⟨.VBR, 6⟩, ⟨.Fixed, MagicFixedSizeNumTypes⟩, ⟨.Fixed, 4⟩,
    AbbrevSentinel, AbbrevSentinel, AbbrevSentinel, AbbrevSentinel],
   [⟨.Literal, FunctionRecord.INST_RET⟩,
    AbbrevSentinel, AbbrevSentinel, AbbrevSentinel, AbbrevSentinel, AbbrevSentinel, AbbrevSentinel,
    AbbrevSentinel],
   [⟨.Literal, FunctionRecord.INST_RET⟩, ⟨.VBR, 6⟩,
    AbbrevSentinel, AbbrevSentinel, AbbrevSentinel, AbbrevSentinel, AbbrevSentinel, AbbrevSentinel],
   [⟨.Literal, FunctionRecord.INST_UNREACHABLE⟩,
    AbbrevSentinel, AbbrevSentinel, AbbrevSentinel, AbbrevSentinel, AbbrevSentinel, AbbrevSentinel,
    AbbrevSentinel],
   [⟨.Literal, FunctionRecord.INST_GEP⟩, ⟨.Fixed, 1⟩, ⟨.Fixed, MagicFixedSizeNumTypes⟩,
    ⟨.Array, 0⟩, ⟨.VBR, 6⟩, AbbrevSentinel, AbbrevSentinel, AbbrevSentinel]]

/-- `GetAbbrevs`, translated from the source: the static table for the
three abbreviation-bearing block kinds, empty for every other kind. -/
def GetAbbrevs : KnownBlock → List (List AbbrevParam)
  | .VALUE_SYMTAB_BLOCK => ValueSymtabAbbrevDefs
  | .CONSTANTS_BLOCK => ConstantsAbbrevDefs
  | .FUNCTION_BLOCK => FunctionAbbrevDefs
  | _ => []

/-- `GetNumAbbrevs`, translated from the source. -/
def GetNumAbbrevs : KnownBlock → Nat
  | .VALUE_SYMTAB_BLOCK => ValueSymtabAbbrevDefs.length
  | .CONSTANTS_BLOCK => ConstantsAbbrevDefs.length
  | .FUNCTION_BLOCK => FunctionAbbrevDefs.length
  | _ => 0

/-- The type-index width substitution performed inside `ModuleBlockInfo`:
a parameter whose value equals the reserved magic has its value replaced by
`32 - CountLeadingZeroes(numTypes)`. -/
def substTypeWidth (numTypes : Nat) (param : AbbrevParam) : AbbrevParam :=
  if param.value = MagicFixedSizeNumTypes then
    { param with value := 32 - countLeadingZeroes32 numTypes }
  else param

/-- Modelled from the spec: the fixed 4-byte magic identifying the bitcode
container (`BitcodeMagic`, declared outside the shown core): the bytes
`42 43 C0 DE` as a little-endian 32-bit value. -/
def BitcodeMagic : Nat := 0xDEC04342

/-- Writer session state: the bit cursor plus the block framer state
(`curBlock`, `abbrevSize`, `blockStack`).  `errored` records that
`RDCERR` was reached, which the source only logs. -/
structure BitcodeWriter where
  b : BitWriter
  curBlock : KnownBlock
  abbrevSize : Nat
  blockStack : List (KnownBlock × Nat)
  errored : Bool
deriving DecidableEq

/-- The `BitcodeWriter` constructor: writes the magic and establishes the
top-level default state. -/
def newBitcodeWriter : BitcodeWriter :=
  { b := writeU32 ⟨[]⟩ BitcodeMagic
  , curBlock := KnownBlock.Count
  , abbrevSize := 2
  , blockStack := []
  , errored := false }

/-- `BitcodeWriter::BeginBlock`, translated from the source. -/
def BeginBlock (s : BitcodeWriter) (block : KnownBlock) : BitcodeWriter :=
  let newAbbrevSize := GetBlockAbbrevSize block
  if newAbbrevSize = 0 then { s with errored := true }
  else
    let b := writeFixed s.b s.abbrevSize ENTER_SUBBLOCK
    let b := writeVBR b 8 (blockId block)
    let b := writeVBR b 4 newAbbrevSize
    let b := align32 b
    let offs := byteOffset b
    let b := writeU32 b 0
    { b := b
    , curBlock := block
    , abbrevSize := newAbbrevSize
    , blockStack := s.blockStack ++ [(block, offs)]
    , errored := s.errored }

/-- `BitcodeWriter::EndBlock`, translated from the source; the
`uint32_t` cast of the patched length is the explicit `% 2 ^ 32`. -/
def EndBlock (s : BitcodeWriter) : BitcodeWriter :=
  let b := align32 (writeVBR s.b s.abbrevSize END_BLOCK)
  let offs := (s.blockStack.getLastD (KnownBlock.Count, 0)).2
  let lengthInBytes := byteOffset b - offs - 4
  let b := patchLengthWord b offs (lengthInBytes / 4 % 2 ^ 32)
  let stack := s.blockStack.dropLast
  if stack.isEmpty then
    { b := b, curBlock := KnownBlock.Count, abbrevSize := 2
    , blockStack := stack, errored := s.errored }
  else
    let top := stack.getLastD (KnownBlock.Count, 0)
    { b := b, curBlock := top.1, abbrevSize := GetBlockAbbrevSize top.1
    , blockStack := stack, errored := s.errored }

/-- The scalar `Unabbrev(uint32_t record, uint32_t val)` overload,
translated from the source. -/
def Unabbrev32 (s : BitcodeWriter) (record val : Nat) : BitcodeWriter :=
  let b := writeFixed s.b s.abbrevSize UNABBREV_RECORD
  let b := writeVBR b 6 record
  let b := writeVBR b 6 1
  { s with b := writeVBR b 6 val }

/-- The scalar `Unabbrev(uint32_t record, uint64_t val)` overload,
translated from the source. -/
def Unabbrev64 (s : BitcodeWriter) (record val : Nat) : BitcodeWriter :=
  let b := writeFixed s.b s.abbrevSize UNABBREV_RECORD
  let b := writeVBR b 6 record
  let b := writeVBR b 6 1
  { s with b := writeVBR b 6 val }

/-- The `Unabbrev(uint32_t record, const rdcarray<uint32_t> &vals)`
overload, translated from the source. -/
def UnabbrevList32 (s : BitcodeWriter) (record : Nat) (vals : List Nat) : BitcodeWriter :=
  let b := writeFixed s.b s.abbrevSize UNABBREV_RECORD
  let b := writeVBR b 6 record
  let b := writeVBR b 6 vals.length
  { s with b := vals.foldl (fun b v => writeVBR b 6 v) b }

/-- The `Unabbrev(uint32_t record, const rdcarray<uint64_t> &vals)`
overload, translated from the source. -/
def UnabbrevList64 (s : BitcodeWriter) (record : Nat) (vals : List Nat) : BitcodeWriter :=
  let b := writeFixed s.b s.abbrevSize UNABBREV_RECORD
  let b := writeVBR b 6 record
  let b := writeVBR b 6 vals.length
  { s with b := vals.foldl (fun b v => writeVBR b 6 v) b }

/-- The per-parameter emission step of the `DEFINE_ABBREV` loop in
`ModuleBlockInfo`, translated from the source: apply the magic-width
substitution, write the 1-bit literal flag, then either the VBR8 literal
value or the 3-bit encoding tag followed, for Fixed and VBR kinds, by the
VBR5 width. -/
def defineAbbrevParamStep (numTypes : Nat) (b : BitWriter) (param0 : AbbrevParam) : BitWriter :=
  let param := substTypeWidth numTypes param0
  let lit : Bool := param.encoding == AbbrevEncoding.Literal
  let b1 := writeFixed b 1 (if lit then 1 else 0)
  if lit then writeVBR b1 8 param.value
  else
    let b2 := writeFixed b1 3 (encCode param.encoding)
    if param.encoding == AbbrevEncoding.VBR || param.encoding == AbbrevEncoding.Fixed then
      writeVBR b2 5 param.value
    else b2

/-- One `DEFINE_ABBREV` record of the `ModuleBlockInfo` loop, translated
from the source: the DEFINE_ABBREV id at the current width, the parameter
count (counted up to the `Unknown` sentinel) as VBR5, then each counted
parameter. -/
def defineAbbrev (s : BitcodeWriter) (numTypes : Nat) (ab : List AbbrevParam) : BitcodeWriter :=
  let b := writeFixed s.b s.abbrevSize DEFINE_ABBREV
  let params := ab.takeWhile fun p => !(p.encoding == AbbrevEncoding.Unknown)
  let b := writeVBR b 5 params.length
  { s with b := params.foldl (defineAbbrevParamStep numTypes) b }

/-- `BitcodeWriter::ModuleBlockInfo`, translated from the source. -/
def ModuleBlockInfo (s : BitcodeWriter) (numTypes : Nat) : BitcodeWriter :=
  let s := BeginBlock s KnownBlock.BLOCKINFO
  let s :=
    [KnownBlock.VALUE_SYMTAB_BLOCK, KnownBlock.CONSTANTS_BLOCK, KnownBlock.FUNCTION_BLOCK].foldl
      (fun s block =>
        let s := Unabbrev32 s BlockInfoRecord.SETBID (blockId block)
        (GetAbbrevs block).foldl (fun s ab => defineAbbrev s numTypes ab) s)
      s
  EndBlock s

/-- Append raw bits to the output of a writer, leaving the framer state
unchanged; used to describe emission sequences. -/
def writerAppend (s : BitcodeWriter) (l : List Bool) : BitcodeWriter :=
  { s with b := ⟨s.b.bits ++ l⟩ }

/-- Wire shape of an unabbreviated record at abbreviation width `w`: the
UNABBREV_RECORD id as a fixed-width field, the record code as VBR6, the
operand count as VBR6, then each operand as VBR6. -/
def unabbrevRecordBits (w record : Nat) (vals : List Nat) : List Bool :=
  natBits w UNABBREV_RECORD ++ vbrBits 6 record ++ vbrBits 6 vals.length ++
    (vals.map (vbrBits 6)).flatten

/-- Wire shape of one `DEFINE_ABBREV` parameter after the magic-width
substitution: the 1-bit literal flag, then either a VBR8 literal value or
a 3-bit encoding tag with a VBR5 width only for Fixed and VBR kinds. -/
def defineAbbrevParamBits (numTypes : Nat) (param0 : AbbrevParam) : List Bool :=
  let param := substTypeWidth numTypes param0
  let lit : Bool := param.encoding == AbbrevEncoding.Literal
  natBits 1 (if lit then 1 else 0) ++
    if lit then vbrBits 8 param.value
    else
      natBits 3 (encCode param.encoding) ++
        if param.encoding == AbbrevEncoding.VBR || param.encoding == AbbrevEncoding.Fixed then
          vbrBits 5 param.value
        else []

/-- Wire shape of one `DEFINE_ABBREV` record at abbreviation width `w`. -/
def defineAbbrevBits (w numTypes : Nat) (ab : List AbbrevParam) : List Bool :=
  let params := ab.takeWhile fun p => !(p.encoding == AbbrevEncoding.Unknown)
  natBits w DEFINE_ABBREV ++ vbrBits 5 params.length ++
    (params.map (defineAbbrevParamBits numTypes)).flatten

/-- Wire shape of the whole BLOCKINFO body: for each of the three
abbreviation-bearing block kinds in order, a `SETBID` unabbreviated record
naming the kind followed by the `DEFINE_ABBREV` records of its table. -/
def blockInfoBodyBits (w numTypes : Nat) : List Bool :=
  ([KnownBlock.VALUE_SYMTAB_BLOCK, KnownBlock.CONSTANTS_BLOCK, KnownBlock.FUNCTION_BLOCK].map
      fun block =>
        unabbrevRecordBits w BlockInfoRecord.SETBID [blockId block] ++
          ((GetAbbrevs block).map (defineAbbrevBits w numTypes)).flatten).flatten

/-- Header bits of a block entry: the ENTER_SUBBLOCK id at the
pre-transition width, the block kind as VBR8, the new width as VBR4. -/
def enterHeaderBits (s : BitcodeWriter) (block : KnownBlock) : List Bool :=
  s.b.bits ++ natBits s.abbrevSize ENTER_SUBBLOCK ++ vbrBits 8 (blockId block) ++
    vbrBits 4 (GetBlockAbbrevSize block)

/-- Number of zero bits needed to pad a stream of `n` bits to a multiple
of 32. -/
def alignPad (n : Nat) : Nat := (32 - n % 32) % 32

/-- Spec-side variant of `EndBlock` for the refinement claim: the
END_BLOCK abbreviation id is emitted with a fixed-width write at the
current abbreviation width instead of the VBR write the source performs;
everything else is identical. -/
def EndBlockFixedEmit (s : BitcodeWriter) : BitcodeWriter :=
  let b := align32 (writeFixed s.b s.abbrevSize END_BLOCK)
  let offs := (s.blockStack.getLastD (KnownBlock.Count, 0)).2
  let lengthInBytes := byteOffset b - offs - 4
  let b := patchLengthWord b offs (lengthInBytes / 4 % 2 ^ 32)
  let stack := s.blockStack.dropLast
  if stack.isEmpty then
    { b := b, curBlock := KnownBlock.Count, abbrevSize := 2
    , blockStack := stack, errored := s.errored }
  else
    let top := stack.getLastD (KnownBlock.Count, 0)
    { b := b, curBlock := top.1, abbrevSize := GetBlockAbbrevSize top.1
    , blockStack := stack, errored := s.errored }

/-- A structural event of the block framer. -/
inductive WriterOp where
  | beginBlock (block : KnownBlock)
  | endBlock
deriving DecidableEq

/-- Apply one structural event to the writer. -/
def applyOp (s : BitcodeWriter) : WriterOp → BitcodeWriter
  | .beginBlock block => BeginBlock s block
  | .endBlock => EndBlock s

/-- Run a sequence of structural events. -/
def runOps (s : BitcodeWriter) (ops : List WriterOp) : BitcodeWriter :=
  ops.foldl applyOp s

/-- The abbreviation width dictated by the block stack: the width of the
top-of-stack block kind, or the top-level default 2 when empty. -/
def topWidth (s : BitcodeWriter) : Nat :=
  match s.blockStack.getLast? with
  | some (k, _) => GetBlockAbbrevSize k
  | none => 2

/-- All abbreviation parameters appearing in the three static tables. -/
def allBlockInfoAbbrevParams : List AbbrevParam :=
  (ValueSymtabAbbrevDefs ++ ConstantsAbbrevDefs ++ FunctionAbbrevDefs).flatten

theorem natBits_length (w v : Nat) : (natBits w v).length = w := by
  induction w generalizing v with
  | zero => rfl
  | succ w ih => simp [natBits, ih]

theorem natBits_zero (w : Nat) : natBits w 0 = List.replicate w false := by
  induction w with
  | zero => rfl
  | succ w ih => simp [natBits, ih, List.replicate_succ]

theorem natOfBits_natBits (w v : Nat) (h : v < 2 ^ w) : natOfBits (natBits w v) = v := by
  induction w generalizing v with
  | zero =>
      interval_cases v
      rfl
  | succ w ih =>
      have hv : v / 2 < 2 ^ w := by
        rw [Nat.div_lt_iff_lt_mul (by norm_num)]
        calc v < 2 ^ (w + 1) := h
        _ = 2 ^ w * 2 := by ring
      have := ih (v / 2) hv
      rcases Nat.mod_two_eq_zero_or_one v with h2 | h2 <;>
        simp [natBits, natOfBits, h2, this] <;> omega

theorem vbrBits_zero (w : Nat) : vbrBits w 0 = natBits w 0 := by
  by_cases hw : w ≤ 1
  · simp [vbrBits, vbrBitsAux, hw]
  · have hpos : 0 < 2 ^ (w - 1) := Nat.pos_pow_of_pos _ (by norm_num)
    have hw1 : w - 1 + 1 = w := by omega
    simp only [vbrBits, vbrBitsAux, if_neg hw, if_pos hpos]
    rw [natBits_zero, natBits_zero]
    have hrep := List.replicate_succ' (w - 1) false
    rw [hw1] at hrep
    exact hrep.symm

theorem writeVBR_endblock_eq_writeFixed (b : BitWriter) (w : Nat) :
    writeVBR b w END_BLOCK = writeFixed b w END_BLOCK := by
  simp [writeVBR, writeFixed, END_BLOCK, vbrBits_zero]

theorem bitLenAux_zero (fuel : Nat) : bitLenAux fuel 0 = 0 := by
  cases fuel <;> rfl

theorem bitLenAux_le (fuel n : Nat) : bitLenAux fuel n ≤ fuel := by
  induction fuel generalizing n with
  | zero => simp [bitLenAux]
  | succ fuel ih =>
      cases n with
      | zero => simp [bitLenAux]
      | succ m =>
          simp only [bitLenAux]
          exact Nat.succ_le_succ (ih _)

theorem bitLenAux_spec (fuel : Nat) :
    ∀ n, 1 ≤ n → n < 2 ^ fuel →
      1 ≤ bitLenAux fuel n ∧ 2 ^ (bitLenAux fuel n - 1) ≤ n ∧ n < 2 ^ bitLenAux fuel n := by
  induction fuel with
  | zero =>
      intro n h1 h2
      simp at h2
      omega
  | succ fuel ih =>
      intro n h1 h2
      obtain ⟨m, rfl⟩ : ∃ m, n = m + 1 := ⟨n - 1, by omega⟩
      simp only [bitLenAux]
      by_cases hm : (m + 1) / 2 = 0
      · have : m = 0 := by omega
        subst this
        simp [hm, bitLenAux_zero]
      · have hdiv1 : 1 ≤ (m + 1) / 2 := by omega
        have hdiv2 : (m + 1) / 2 < 2 ^ fuel := by
          rw [Nat.div_lt_iff_lt_mul (by norm_num)]
          calc m + 1 < 2 ^ (fuel + 1) := h2
          _ = 2 ^ fuel * 2 := by ring
        obtain ⟨k1, kl, ku⟩ := ih _ hdiv1 hdiv2
        set k := bitLenAux fuel ((m + 1) / 2) with hk
        refine ⟨by omega, ?_, ?_⟩
        · have hsub : k + 1 - 1 = k - 1 + 1 := by omega
          rw [hsub, pow_succ]
          have : 2 ^ (k - 1) * 2 ≤ (m + 1) / 2 * 2 := by omega
          calc 2 ^ (k - 1) * 2 ≤ (m + 1) / 2 * 2 := this
          _ ≤ m + 1 := by omega
        · rw [pow_succ]
          have := (Nat.div_lt_iff_lt_mul (show 0 < 2 by norm_num)).mp ku
          omega

theorem bitLen32_spec (n : Nat) (h1 : 1 ≤ n) (h2 : n < 2 ^ 32) :
    1 ≤ bitLen32 n ∧ 2 ^ (bitLen32 n - 1) ≤ n ∧ n < 2 ^ bitLen32 n :=
  bitLenAux_spec 32 n h1 h2

theorem foldl_writeVBR_bits (vals : List Nat) (b : BitWriter) :
    (vals.foldl (fun b v => writeVBR b 6 v) b).bits =
      b.bits ++ (vals.map (vbrBits 6)).flatten := by
  induction vals generalizing b with
  | nil => simp
  | cons v vs ih =>
      simp only [List.foldl_cons, List.map_cons, List.flatten_cons]
      rw [ih]
      simp [writeVBR, List.append_assoc]

/-- C5: the per-block abbreviation-id width mapping is exactly BLOCKINFO=2,
MODULE=3, PARAMATTR=3, PARAMATTR_GROUP=3, CONSTANTS=4, FUNCTION=4,
VALUE_SYMTAB=4, METADATA=3, METADATA_ATTACHMENT=3, TYPE=4, USELIST=3, and
the sentinel kind maps to no valid width (0). -/
theorem blockAbbrevWidth_table :
    GetBlockAbbrevSize KnownBlock.BLOCKINFO = 2 ∧
    GetBlockAbbrevSize KnownBlock.MODULE_BLOCK = 3 ∧
    GetBlockAbbrevSize KnownBlock.PARAMATTR_BLOCK = 3 ∧
    GetBlockAbbrevSize KnownBlock.PARAMATTR_GROUP_BLOCK = 3 ∧
    GetBlockAbbrevSize KnownBlock.CONSTANTS_BLOCK = 4 ∧
    GetBlockAbbrevSize KnownBlock.FUNCTION_BLOCK = 4 ∧
    GetBlockAbbrevSize KnownBlock.VALUE_SYMTAB_BLOCK = 4 ∧
    GetBlockAbbrevSize KnownBlock.METADATA_BLOCK = 3 ∧
    GetBlockAbbrevSize KnownBlock.METADATA_ATTACHMENT = 3 ∧
    GetBlockAbbrevSize KnownBlock.TYPE_BLOCK = 4 ∧
    GetBlockAbbrevSize KnownBlock.USELIST_BLOCK = 3 ∧
    GetBlockAbbrevSize KnownBlock.Count = 0 := by
  decide

/-- C8: calling `BeginBlock` with an unrecognized block kind (one of width
0) reports an encoding error and leaves all writer state unchanged: no
bytes are written (in particular none beyond the abbreviation-id-width
emission), no frame is pushed, and the effective width is unmodified. -/
theorem beginBlock_unrecognized_noop (s : BitcodeWriter) (block : KnownBlock)
    (h : GetBlockAbbrevSize block = 0) :
    BeginBlock s block = { s with errored := true } ∧
    (BeginBlock s block).b = s.b ∧
    (BeginBlock s block).blockStack = s.blockStack ∧
    (BeginBlock s block).abbrevSize = s.abbrevSize ∧
    (BeginBlock s block).errored = true := by
  simp [BeginBlock, h]

theorem beginBlock_unrecognized_noop_witness :
    GetBlockAbbrevSize KnownBlock.Count = 0 ∧
      BeginBlock newBitcodeWriter KnownBlock.Count =
        { newBitcodeWriter with errored := true } :=
  ⟨rfl, (beginBlock_unrecognized_noop newBitcodeWriter KnownBlock.Count rfl).1⟩

/-- C9: `EndBlock` emits the END_BLOCK abbreviation id 0 with a VBR write
at the current abbreviation width; that write produces exactly the bits of
a fixed-width write of 0 at that width (that many zero bits), so `EndBlock`
coincides with the fixed-width-emitting variant. -/
theorem endBlock_vbr_zero_is_fixed (s : BitcodeWriter) :
    EndBlock s = EndBlockFixedEmit s ∧
    writeVBR s.b s.abbrevSize END_BLOCK = writeFixed s.b s.abbrevSize END_BLOCK ∧
    (writeVBR s.b s.abbrevSize END_BLOCK).bits =
      s.b.bits ++ List.replicate s.abbrevSize false := by
  refine ⟨?_, writeVBR_endblock_eq_writeFixed s.b s.abbrevSize, ?_⟩
  · simp only [EndBlock, EndBlockFixedEmit, writeVBR_endblock_eq_writeFixed]
  · simp [writeVBR, END_BLOCK, vbrBits_zero, natBits_zero]

/-- C6: every `Unabbrev` overload emits the UNABBREV_RECORD id 3 as a
fixed-width field at the current abbreviation width, then the record code
as VBR6, the operand count as VBR6 (1 for the scalar overloads, the list
length for the list overloads), then each operand as VBR6; for equal
record codes and equal operand values all overloads produce identical
bits. -/
theorem unabbrev_overloads_shape (s : BitcodeWriter) (record val : Nat) (vals : List Nat) :
    (Unabbrev32 s record val).b.bits =
        s.b.bits ++ unabbrevRecordBits s.abbrevSize record [val] ∧
    (Unabbrev64 s record val).b.bits =
        s.b.bits ++ unabbrevRecordBits s.abbrevSize record [val] ∧
    (UnabbrevList32 s record vals).b.bits =
        s.b.bits ++ unabbrevRecordBits s.abbrevSize record vals ∧
    (UnabbrevList64 s record vals).b.bits =
        s.b.bits ++ unabbrevRecordBits s.abbrevSize record vals ∧
    Unabbrev32 s record val = Unabbrev64 s record val ∧
    UnabbrevList32 s record vals = UnabbrevList64 s record vals ∧
    Unabbrev32 s record val = UnabbrevList32 s record [val] := by
  refine ⟨?_, ?_, ?_, ?_, rfl, rfl, ?_⟩
  · simp [Unabbrev32, unabbrevRecordBits, writeFixed, writeVBR, List.append_assoc]
  · simp [Unabbrev64, unabbrevRecordBits, writeFixed, writeVBR, List.append_assoc]
  · simp only [UnabbrevList32, foldl_writeVBR_bits]
    simp [unabbrevRecordBits, writeFixed, writeVBR, List.append_assoc]
  · simp only [UnabbrevList64, foldl_writeVBR_bits]
    simp [unabbrevRecordBits, writeFixed, writeVBR, List.append_assoc]
  · simp [Unabbrev32, UnabbrevList32]

theorem inv_beginBlock (s : BitcodeWriter) (block : KnownBlock)
    (h : s.abbrevSize = topWidth s) :
    (BeginBlock s block).abbrevSize = topWidth (BeginBlock s block) := by
  by_cases h0 : GetBlockAbbrevSize block = 0
  · simpa [BeginBlock, h0, topWidth] using h
  · simp [BeginBlock, h0, topWidth, List.getLast?_concat]

theorem inv_endBlock (s : BitcodeWriter) :
    (EndBlock s).abbrevSize = topWidth (EndBlock s) := by
  by_cases hst : s.blockStack.dropLast.isEmpty
  · have : s.blockStack.dropLast = [] := by simpa [List.isEmpty_iff] using hst
    simp [EndBlock, hst, topWidth, this]
  · have hne : s.blockStack.dropLast ≠ [] := by
      simpa [List.isEmpty_iff] using hst
    obtain ⟨x, hx⟩ : ∃ x, s.blockStack.dropLast.getLast? = some x := by
      cases h : s.blockStack.dropLast.getLast? with
      | none => exact absurd (List.getLast?_eq_none_iff.mp h) hne
      | some x => exact ⟨x, rfl⟩
    simp [EndBlock, hst, topWidth, hx, List.getLastD_eq_getLast?]

theorem runOps_inv (ops : List WriterOp) :
    ∀ s : BitcodeWriter, s.abbrevSize = topWidth s →
      (runOps s ops).abbrevSize = topWidth (runOps s ops) := by
  induction ops with
  | nil => intro s h; exact h
  | cons op ops ih =>
      intro s h
      cases op with
      | beginBlock block =>
          exact ih _ (inv_beginBlock s block h)
      | endBlock =>
          exact ih _ (inv_endBlock s)

/-- C4: after any sequence of `BeginBlock` and `EndBlock` calls the
effective abbreviation-id width equals the width of the top-of-stack block
kind, or the default top-level width 2 when the stack is empty; in
particular after `BeginBlock A`, `BeginBlock B`, `EndBlock` (both kinds
recognized) the effective width equals the width of A. -/
theorem abbrevWidth_matches_stack :
    (∀ ops : List WriterOp,
        (runOps newBitcodeWriter ops).abbrevSize = topWidth (runOps newBitcodeWriter ops)) ∧
    (∀ (A B : KnownBlock) (s : BitcodeWriter),
        GetBlockAbbrevSize A ≠ 0 → GetBlockAbbrevSize B ≠ 0 →
        (EndBlock (BeginBlock (BeginBlock s A) B)).abbrevSize = GetBlockAbbrevSize A) := by
  constructor
  · intro ops
    exact runOps_inv ops newBitcodeWriter rfl
  · intro A B s hA hB
    simp [BeginBlock, hA, hB, EndBlock, List.dropLast_concat, List.getLastD_concat]

theorem bitWriter_eq_of_bits {x y : BitWriter} (h : x.bits = y.bits) : x = y := by
  cases x
  cases y
  simpa using h

theorem writerAppend_assoc (s : BitcodeWriter) (l1 l2 : List Bool) :
    writerAppend (writerAppend s l1) l2 = writerAppend s (l1 ++ l2) := by
  simp [writerAppend, List.append_assoc]

theorem writerAppend_abbrevSize (s : BitcodeWriter) (l : List Bool) :
    (writerAppend s l).abbrevSize = s.abbrevSize := rfl

theorem bitcodeWriter_eq_of_parts {x y : BitcodeWriter} (hb : x.b = y.b)
    (h1 : x.curBlock = y.curBlock) (h2 : x.abbrevSize = y.abbrevSize)
    (h3 : x.blockStack = y.blockStack) (h4 : x.errored = y.errored) : x = y := by
  cases x
  cases y
  simp_all

theorem unabbrev32_eq (s : BitcodeWriter) (record val : Nat) :
    Unabbrev32 s record val = writerAppend s (unabbrevRecordBits s.abbrevSize record [val]) := by
  refine bitcodeWriter_eq_of_parts (bitWriter_eq_of_bits ?_) rfl rfl rfl rfl
  simp [Unabbrev32, writerAppend, unabbrevRecordBits, writeFixed, writeVBR, List.append_assoc]

theorem defineAbbrevParamStep_bits (numTypes : Nat) (b : BitWriter) (p : AbbrevParam) :
    (defineAbbrevParamStep numTypes b p).bits = b.bits ++ defineAbbrevParamBits numTypes p := by
  simp only [defineAbbrevParamStep, defineAbbrevParamBits]
  cases hl : (substTypeWidth numTypes p).encoding == AbbrevEncoding.Literal
  · cases hf : (substTypeWidth numTypes p).encoding == AbbrevEncoding.VBR ||
        (substTypeWidth numTypes p).encoding == AbbrevEncoding.Fixed <;>
      simp [hl, hf, writeFixed, writeVBR, List.append_assoc]
  · simp [hl, writeFixed, writeVBR, List.append_assoc]

theorem foldl_defineAbbrevParamStep (numTypes : Nat) (ps : List AbbrevParam) (b : BitWriter) :
    (ps.foldl (defineAbbrevParamStep numTypes) b).bits =
      b.bits ++ (ps.map (defineAbbrevParamBits numTypes)).flatten := by
  induction ps generalizing b with
  | nil => simp
  | cons p ps ih =>
      simp only [List.foldl_cons, List.map_cons, List.flatten_cons]
      rw [ih, defineAbbrevParamStep_bits]
      simp [List.append_assoc]

theorem defineAbbrev_eq (s : BitcodeWriter) (numTypes : Nat) (ab : List AbbrevParam) :
    defineAbbrev s numTypes ab = writerAppend s (defineAbbrevBits s.abbrevSize numTypes ab) := by
  refine bitcodeWriter_eq_of_parts (bitWriter_eq_of_bits ?_) rfl rfl rfl rfl
  simp only [defineAbbrev, writerAppend, defineAbbrevBits, foldl_defineAbbrevParamStep]
  simp [writeFixed, writeVBR, List.append_assoc]

theorem beginBlock_blockinfo_abbrevSize (s : BitcodeWriter) :
    (BeginBlock s KnownBlock.BLOCKINFO).abbrevSize = 2 := by
  simp [BeginBlock, GetBlockAbbrevSize]

/-- C7: `ModuleBlockInfo` opens a BLOCKINFO block and, for the three
abbreviation-bearing kinds in the fixed order value-symbol-table,
constants, function, emits a `SETBID` unabbreviated record naming the kind
followed by one `DEFINE_ABBREV` record per table entry (parameter count as
VBR5, then per parameter the 1-bit literal flag and either a VBR8 literal
or the 3-bit encoding tag plus a VBR5 width only for Fixed and VBR), all
at the BLOCKINFO width 2, then closes the block. -/
theorem moduleBlockInfo_emission (s : BitcodeWriter) (numTypes : Nat) :
    ModuleBlockInfo s numTypes =
      EndBlock (writerAppend (BeginBlock s KnownBlock.BLOCKINFO)
        (blockInfoBodyBits 2 numTypes)) := by
  unfold ModuleBlockInfo
  refine congrArg EndBlock ?_
  simp only [List.foldl_cons, List.foldl_nil, GetAbbrevs, ValueSymtabAbbrevDefs,
    ConstantsAbbrevDefs, FunctionAbbrevDefs, unabbrev32_eq, defineAbbrev_eq,
    writerAppend_abbrevSize, beginBlock_blockinfo_abbrevSize, writerAppend_assoc]
  simp [blockInfoBodyBits, GetAbbrevs, ValueSymtabAbbrevDefs, ConstantsAbbrevDefs,
    FunctionAbbrevDefs, List.append_assoc]

theorem abbrevWidth_matches_stack_witness :
    (runOps newBitcodeWriter [WriterOp.beginBlock KnownBlock.MODULE_BLOCK]).abbrevSize =
        topWidth (runOps newBitcodeWriter [WriterOp.beginBlock KnownBlock.MODULE_BLOCK]) ∧
    (EndBlock (BeginBlock (BeginBlock newBitcodeWriter KnownBlock.MODULE_BLOCK)
          KnownBlock.TYPE_BLOCK)).abbrevSize = GetBlockAbbrevSize KnownBlock.MODULE_BLOCK :=
  ⟨abbrevWidth_matches_stack.1 _,
    abbrevWidth_matches_stack.2 KnownBlock.MODULE_BLOCK KnownBlock.TYPE_BLOCK newBitcodeWriter
      (by decide) (by decide)⟩

theorem beginBlock_eq (s : BitcodeWriter) (block : KnownBlock)
    (h : GetBlockAbbrevSize block ≠ 0) :
    BeginBlock s block =
      { b := ⟨enterHeaderBits s block ++
            List.replicate (alignPad (enterHeaderBits s block).length) false ++ natBits 32 0⟩
      , curBlock := block
      , abbrevSize := GetBlockAbbrevSize block
      , blockStack := s.blockStack ++
          [(block,
            ((enterHeaderBits s block).length + alignPad (enterHeaderBits s block).length) / 8)]
      , errored := s.errored } := by
  refine bitcodeWriter_eq_of_parts (bitWriter_eq_of_bits ?_) ?_ ?_ ?_ ?_ <;>
    simp [BeginBlock, h, enterHeaderBits, alignPad, writeFixed, writeVBR, writeU32, align32,
      byteOffset, List.append_assoc]
  omega

/-- C3: for every recognized block kind, `BeginBlock` emits the
ENTER_SUBBLOCK abbreviation id 1 at the pre-transition abbreviation width,
the block kind as VBR8, the new width as VBR4, zero padding to 32-bit
alignment, then a 32-bit zero placeholder sitting exactly at the recorded
byte offset; it pushes a frame carrying the block and that offset and
switches the effective width to the new block width. -/
theorem beginBlock_emission (s : BitcodeWriter) (block : KnownBlock)
    (h : GetBlockAbbrevSize block ≠ 0) :
    (BeginBlock s block).b.bits =
        enterHeaderBits s block ++
          List.replicate (alignPad (enterHeaderBits s block).length) false ++ natBits 32 0 ∧
    (BeginBlock s block).blockStack =
        s.blockStack ++
          [(block,
            ((enterHeaderBits s block).length + alignPad (enterHeaderBits s block).length) / 8)] ∧
    (BeginBlock s block).abbrevSize = GetBlockAbbrevSize block ∧
    (BeginBlock s block).curBlock = block ∧
    (((BeginBlock s block).b.bits.drop
          (8 * (((enterHeaderBits s block).length +
            alignPad (enterHeaderBits s block).length) / 8))).take 32) = natBits 32 0 := by
  have he := beginBlock_eq s block h
  have hlen : (enterHeaderBits s block ++
      List.replicate (alignPad (enterHeaderBits s block).length) false).length =
      (enterHeaderBits s block).length + alignPad (enterHeaderBits s block).length := by
    simp
  have h8 : 8 * (((enterHeaderBits s block).length +
      alignPad (enterHeaderBits s block).length) / 8) =
      (enterHeaderBits s block).length + alignPad (enterHeaderBits s block).length := by
    unfold alignPad
    omega
  refine ⟨by rw [he], by rw [he], by rw [he], by rw [he], ?_⟩
  rw [he]
  show ((enterHeaderBits s block ++
      List.replicate (alignPad (enterHeaderBits s block).length) false ++
        natBits 32 0).drop _).take 32 = natBits 32 0
  rw [h8, ← hlen, List.drop_left]
  simp [natBits_zero, List.take_replicate]

theorem beginBlock_emission_witness :
    GetBlockAbbrevSize KnownBlock.MODULE_BLOCK ≠ 0 ∧
    (BeginBlock newBitcodeWriter KnownBlock.MODULE_BLOCK).abbrevSize =
        GetBlockAbbrevSize KnownBlock.MODULE_BLOCK ∧
    (BeginBlock newBitcodeWriter KnownBlock.MODULE_BLOCK).curBlock =
        KnownBlock.MODULE_BLOCK :=
  ⟨by decide,
    (beginBlock_emission newBitcodeWriter KnownBlock.MODULE_BLOCK (by decide)).2.2.1,
    (beginBlock_emission newBitcodeWriter KnownBlock.MODULE_BLOCK (by decide)).2.2.2.1⟩

/-- C1: on `EndBlock`, after the END_BLOCK emission and the 32-bit
alignment, the 32-bit little-endian word patched at the recorded byte
offset of the matching `BeginBlock` equals
`(currentByteOffset - recordedOffset - 4) / 4`, the block body length in
32-bit words excluding the length word itself. -/
theorem endBlock_patches_length (s : BitcodeWriter)
    (_hne : s.blockStack ≠ [])
    (hin : 8 * (s.blockStack.getLastD (KnownBlock.Count, 0)).2 + 32 ≤
      (align32 (writeVBR s.b s.abbrevSize END_BLOCK)).bits.length)
    (hfit : (byteOffset (align32 (writeVBR s.b s.abbrevSize END_BLOCK)) -
        (s.blockStack.getLastD (KnownBlock.Count, 0)).2 - 4) / 4 < 2 ^ 32) :
    readLE32 (EndBlock s).b.bits (s.blockStack.getLastD (KnownBlock.Count, 0)).2 =
      (byteOffset (align32 (writeVBR s.b s.abbrevSize END_BLOCK)) -
        (s.blockStack.getLastD (KnownBlock.Count, 0)).2 - 4) / 4 := by
  have hb : (EndBlock s).b =
      patchLengthWord (align32 (writeVBR s.b s.abbrevSize END_BLOCK))
        (s.blockStack.getLastD (KnownBlock.Count, 0)).2
        ((byteOffset (align32 (writeVBR s.b s.abbrevSize END_BLOCK)) -
          (s.blockStack.getLastD (KnownBlock.Count, 0)).2 - 4) / 4 % 2 ^ 32) := by
    simp only [EndBlock]
    split <;> rfl
  set A := (align32 (writeVBR s.b s.abbrevSize END_BLOCK)).bits with hA
  set o := (s.blockStack.getLastD (KnownBlock.Count, 0)).2 with ho
  set v := (byteOffset (align32 (writeVBR s.b s.abbrevSize END_BLOCK)) - o - 4) / 4 with hv
  have hvlt : v % 2 ^ 32 < 2 ^ 32 := Nat.mod_lt _ (Nat.pos_pow_of_pos _ (by norm_num))
  have htk : (A.take (8 * o)).length = 8 * o := by
    rw [List.length_take]
    omega
  rw [readLE32, hb, patchLengthWord]
  rw [List.append_assoc, List.drop_left' htk, List.take_left' (natBits_length 32 _)]
  rw [natOfBits_natBits 32 _ hvlt, Nat.mod_eq_of_lt hfit]

theorem endBlock_patches_length_witness :
    (BeginBlock newBitcodeWriter KnownBlock.MODULE_BLOCK).blockStack ≠ [] ∧
    readLE32 (EndBlock (BeginBlock newBitcodeWriter KnownBlock.MODULE_BLOCK)).b.bits
        ((BeginBlock newBitcodeWriter KnownBlock.MODULE_BLOCK).blockStack.getLastD
          (KnownBlock.Count, 0)).2 =
      (byteOffset (align32 (writeVBR (BeginBlock newBitcodeWriter KnownBlock.MODULE_BLOCK).b
            (BeginBlock newBitcodeWriter KnownBlock.MODULE_BLOCK).abbrevSize END_BLOCK)) -
        ((BeginBlock newBitcodeWriter KnownBlock.MODULE_BLOCK).blockStack.getLastD
          (KnownBlock.Count, 0)).2 - 4) / 4 :=
  ⟨by decide,
    endBlock_patches_length (BeginBlock newBitcodeWriter KnownBlock.MODULE_BLOCK)
      (by decide) (by decide) (by decide)⟩

/-- C2 as stated is false on the code: at `numTypes = 4` the magic width
is replaced by 3 (the bit length of 4, `32 - clz32(4)`) whereas
`ceil(log2 4) = 2`. -/
theorem substWidth_not_ceilLog2_counterexample :
    (substTypeWidth 4 ⟨AbbrevEncoding.Fixed, MagicFixedSizeNumTypes⟩).value ≠ Nat.clog 2 4 ∧
    (substTypeWidth 4 ⟨AbbrevEncoding.Fixed, MagicFixedSizeNumTypes⟩).value = 3 ∧
    Nat.clog 2 4 = 2 := by
  have hclog : Nat.clog 2 4 = 2 := by
    have h4 : (4 : Nat) = 2 ^ 2 := by norm_num
    rw [h4, Nat.clog_pow 2 2 (by norm_num)]
  have hval : (substTypeWidth 4 ⟨AbbrevEncoding.Fixed, MagicFixedSizeNumTypes⟩).value = 3 := by
    decide
  refine ⟨?_, hval, hclog⟩
  rw [hval, hclog]
  decide

/-- C2 amended: for every `numTypes` in `[1, 2^32)`, a parameter whose
declared width equals the reserved magic 99 is emitted with its width
replaced by the bit length of `numTypes` (`32 - clz32(numTypes)`, i.e. the
unique `w ≥ 1` with `2^(w-1) ≤ numTypes < 2^w`, which is
`floor(log2 numTypes) + 1` and exceeds `ceil(log2 numTypes)` exactly at
powers of two); a Fixed parameter is emitted non-literal with that width
as VBR5. -/
theorem substWidth_is_bitLength (numTypes : Nat) (b : BitWriter) (p : AbbrevParam)
    (h1 : 1 ≤ numTypes) (h2 : numTypes < 2 ^ 32)
    (hv : p.value = MagicFixedSizeNumTypes) (he : p.encoding = AbbrevEncoding.Fixed) :
    1 ≤ (substTypeWidth numTypes p).value ∧
    2 ^ ((substTypeWidth numTypes p).value - 1) ≤ numTypes ∧
    numTypes < 2 ^ (substTypeWidth numTypes p).value ∧
    (defineAbbrevParamStep numTypes b p).bits =
      b.bits ++ natBits 1 0 ++ natBits 3 (encCode AbbrevEncoding.Fixed) ++
        vbrBits 5 (substTypeWidth numTypes p).value := by
  obtain ⟨e, val⟩ := p
  simp only at hv he
  subst hv
  subst he
  obtain ⟨hL1, hL2, hL3⟩ := bitLen32_spec numTypes h1 h2
  have hle : bitLen32 numTypes ≤ 32 := bitLenAux_le 32 numTypes
  have hsub : substTypeWidth numTypes ⟨AbbrevEncoding.Fixed, MagicFixedSizeNumTypes⟩ =
      ⟨AbbrevEncoding.Fixed, bitLen32 numTypes⟩ := by
    simp [substTypeWidth, countLeadingZeroes32]
    omega
  rw [hsub]
  refine ⟨hL1, hL2, hL3, ?_⟩
  simp [defineAbbrevParamStep, hsub, writeFixed, writeVBR, List.append_assoc]

theorem substWidth_is_bitLength_witness :
    1 ≤ (substTypeWidth 5 ⟨AbbrevEncoding.Fixed, MagicFixedSizeNumTypes⟩).value ∧
    2 ^ ((substTypeWidth 5 ⟨AbbrevEncoding.Fixed, MagicFixedSizeNumTypes⟩).value - 1) ≤ 5 ∧
    5 < 2 ^ (substTypeWidth 5 ⟨AbbrevEncoding.Fixed, MagicFixedSizeNumTypes⟩).value ∧
    (defineAbbrevParamStep 5 ⟨[]⟩ ⟨AbbrevEncoding.Fixed, MagicFixedSizeNumTypes⟩).bits =
      ([] : List Bool) ++ natBits 1 0 ++ natBits 3 (encCode AbbrevEncoding.Fixed) ++
        vbrBits 5 (substTypeWidth 5 ⟨AbbrevEncoding.Fixed, MagicFixedSizeNumTypes⟩).value :=
  substWidth_is_bitLength 5 ⟨[]⟩ ⟨AbbrevEncoding.Fixed, MagicFixedSizeNumTypes⟩
    (by decide) (by decide) rfl rfl

/-- C10: in the three static abbreviation tables every parameter whose
value equals the reserved magic 99 has encoding kind Fixed, no Literal
parameter has literal value 99 (and no non-Fixed parameter carries the
magic at all); consequently the `numTypes` substitution, which matches on
the value alone, rewrites only the Fixed type-index width fields and
leaves every parameter without the magic value unchanged. -/
theorem blockInfoTables_magic_only_fixed :
    (∀ p ∈ allBlockInfoAbbrevParams,
        (p.value = MagicFixedSizeNumTypes → p.encoding = AbbrevEncoding.Fixed) ∧
        (p.encoding = AbbrevEncoding.Literal → p.value ≠ MagicFixedSizeNumTypes) ∧
        (p.encoding ≠ AbbrevEncoding.Fixed → p.value ≠ MagicFixedSizeNumTypes)) ∧
    (∀ (numTypes : Nat) (p : AbbrevParam),
        p.value ≠ MagicFixedSizeNumTypes → substTypeWidth numTypes p = p) := by
  constructor
  · decide
  · intro numTypes p hp
    simp [substTypeWidth, hp]

theorem blockInfoTables_magic_only_fixed_witness :
    ((AbbrevParam.mk AbbrevEncoding.Fixed MagicFixedSizeNumTypes).value =
        MagicFixedSizeNumTypes →
      (AbbrevParam.mk AbbrevEncoding.Fixed MagicFixedSizeNumTypes).encoding =
        AbbrevEncoding.Fixed) ∧
    substTypeWidth 7 (AbbrevParam.mk AbbrevEncoding.VBR 8) =
      AbbrevParam.mk AbbrevEncoding.VBR 8 :=
  ⟨(blockInfoTables_magic_only_fixed.1 ⟨AbbrevEncoding.Fixed, MagicFixedSizeNumTypes⟩
      (by decide)).1,
    blockInfoTables_magic_only_fixed.2 7 ⟨AbbrevEncoding.VBR, 8⟩ (by decide)⟩

end LLVMBC
